import Mathlib

/-!
Verification of the TimeTrakr time-input and earnings pipeline.

The TypeScript sources are shallowly embedded: JavaScript numbers are
idealized as exact rationals (`ℚ`), with the special values `NaN` and
`±Infinity` represented explicitly by the `JSNum` type where the parser's
behavior depends on them.  String-valued inputs are lists of characters;
the JS string functions used by the source (`trim`, `split(".")`,
`parseInt`, `parseFloat`, `slice`, `padEnd`) are modelled on the input
shapes the code receives (decimal digit strings, `Infinity`, arbitrary
non-numeric text).
-/

namespace TimeTrakr

/-- JS `+` on finite numbers, idealized as exact rational addition.  Written
with `Rat.divInt` (rather than `+`, which Batteries marks `@[irreducible]`)
so that the kernel can evaluate parser runs on concrete inputs;
`qAdd_eq` proves it equal to `+`. -/
def qAdd (a b : ℚ) : ℚ := Rat.divInt (a.num * b.den + b.num * a.den) (a.den * b.den)

/-- JS `*` on finite numbers, idealized as exact rational multiplication, in
the same kernel-reducible normal form as `qAdd`; `qMul_eq` proves it equal
to `*`. -/
def qMul (a b : ℚ) : ℚ := Rat.divInt (a.num * b.num) (a.den * b.den)

/-- Model of a JavaScript number: NaN, positive or negative Infinity, or a
finite value (finite doubles are idealized as exact rationals). -/
inductive JSNum where
  | nan
  | inf
  | ninf
  | fin (q : ℚ)
deriving DecidableEq

namespace JSNum

/-- JS `Number.isNaN`. -/
def isNaN : JSNum → Bool
  | nan => true
  | _ => false

/-- JS `x < c` for a finite constant `c`; comparisons with NaN are false. -/
def ltQ : JSNum → ℚ → Bool
  | nan, _ => false
  | inf, _ => false
  | ninf, _ => true
  | fin q, c => decide (q < c)

/-- JS `x >= c` for a finite constant `c`; comparisons with NaN are false. -/
def geQ : JSNum → ℚ → Bool
  | nan, _ => false
  | inf, _ => true
  | ninf, _ => false
  | fin q, c => decide (c ≤ q)

/-- JS addition. -/
def add : JSNum → JSNum → JSNum
  | nan, _ => nan
  | _, nan => nan
  | inf, ninf => nan
  | ninf, inf => nan
  | inf, _ => inf
  | _, inf => inf
  | ninf, _ => ninf
  | _, ninf => ninf
  | fin a, fin b => fin (qAdd a b)

/-- JS multiplication by the positive constant 60 (as in `numeric * 60`). -/
def mul60 : JSNum → JSNum
  | nan => nan
  | inf => inf
  | ninf => ninf
  | fin q => fin (qMul q 60)

/-- JS `Math.round` (round half toward positive infinity, i.e.
`floor(x + 0.5)`); NaN and the infinities propagate. -/
def round : JSNum → JSNum
  | nan => nan
  | inf => inf
  | ninf => ninf
  | fin q => fin ((Rat.floor (qAdd q (Rat.divInt 1 2)) : ℤ) : ℚ)

/-- JS `Math.max(0, x)`: NaN propagates, `-Infinity` clamps to 0. -/
def max0 : JSNum → JSNum
  | nan => nan
  | inf => inf
  | ninf => fin 0
  | fin q => fin (max 0 q)

end JSNum

instance exceptDecEq {ε α : Type} [DecidableEq ε] [DecidableEq α] : DecidableEq (Except ε α) :=
  fun a b =>
    match a, b with
    | Except.error e, Except.error f =>
      if h : e = f then isTrue (by rw [h]) else isFalse (by intro hh; cases hh; exact h rfl)
    | Except.error _, Except.ok _ => isFalse (by intro h; cases h)
    | Except.ok _, Except.error _ => isFalse (by intro h; cases h)
    | Except.ok x, Except.ok y =>
      if h : x = y then isTrue (by rw [h]) else isFalse (by intro hh; cases hh; exact h rfl)

/-- Numeric value of a decimal digit character. -/
def charDigitVal (c : Char) : ℕ := c.toNat - Char.toNat '0'

/-- Value of a string of decimal digits. -/
def digitsToNat (l : List Char) : ℕ := l.foldl (fun n c => 10 * n + charDigitVal c) 0

/-- JS `parseInt(s, 10)` on its nonnegative decimal fragment: the longest
leading run of digits, `none` for NaN (no leading digit). -/
def jsParseInt (l : List Char) : Option ℕ :=
  let ds := l.takeWhile Char.isDigit
  if ds.isEmpty then none else some (digitsToNat ds)

/-- Whitespace characters removed by JS `String.prototype.trim` (the common
ASCII ones). -/
def isJsWhitespace (c : Char) : Bool :=
  c == ' ' || c == '\t' || c == '\n' || c == '\r'

/-- JS `String.prototype.trim`. -/
def jsTrim (l : List Char) : List Char :=
  ((l.dropWhile isJsWhitespace).reverse.dropWhile isJsWhitespace).reverse

/-- First two fields of JS `s.split(".")`, as consumed by the destructuring
`const [hoursPart, minutesPartRaw = ""] = asString.split(".")`. -/
def splitDot (l : List Char) : List Char × List Char :=
  let before := l.takeWhile (fun c => !(c == '.'))
  match l.dropWhile (fun c => !(c == '.')) with
  | [] => (before, [])
  | _ :: after => (before, after.takeWhile (fun c => !(c == '.')))

/-- JS `s.padEnd(2, "0")`. -/
def jsPadEnd2 (l : List Char) : List Char := l ++ List.replicate (2 - l.length) '0'

/-- The characters of `"Infinity"`. -/
def infinityChars : List Char := ['I', 'n', 'f', 'i', 'n', 'i', 't', 'y']

/-- Ten to an integer power, as an exact rational in kernel-reducible form. -/
def pow10 : ℤ → ℚ
  | Int.ofNat n => ((10 ^ n : ℕ) : ℚ)
  | Int.negSucc n => Rat.divInt 1 ((10 : ℤ) ^ (n + 1))

/-- Exponent suffix handling of JS `parseFloat`: an `e`/`E` followed by an
optionally signed digit run scales the mantissa; anything else is ignored. -/
def applyExponent (q : ℚ) (l : List Char) : ℚ :=
  if l.head? = some 'e' ∨ l.head? = some 'E' then
    let l2 := l.tail
    let negE := l2.head? = some '-'
    let l3 := if l2.head? = some '-' ∨ l2.head? = some '+' then l2.tail else l2
    let eD := l3.takeWhile Char.isDigit
    if eD.isEmpty then q
    else qMul q (pow10 (if negE then -(digitsToNat eD : ℤ) else (digitsToNat eD : ℤ)))
  else q

/-- JS `parseFloat` after the optional sign: `Infinity`, or a decimal
mantissa with optional exponent, reading the longest valid leading part;
NaN when no digits are found. -/
def parseFloatUnsigned (l : List Char) (neg : Bool) : JSNum :=
  if infinityChars.isPrefixOf l then (if neg then JSNum.ninf else JSNum.inf)
  else
    let intD := l.takeWhile Char.isDigit
    let rest := l.dropWhile Char.isDigit
    let fracD := if rest.head? = some '.' then rest.tail.takeWhile Char.isDigit else []
    let rest2 := if rest.head? = some '.' then rest.tail.dropWhile Char.isDigit else rest
    if intD.isEmpty ∧ fracD.isEmpty then JSNum.nan
    else
      let mant : ℚ :=
        Rat.divInt ((digitsToNat intD : ℤ) * (10 : ℤ) ^ fracD.length + (digitsToNat fracD : ℤ))
          ((10 : ℤ) ^ fracD.length)
      JSNum.fin (applyExponent (if neg then -mant else mant) rest2)

/-- JS `parseFloat` (on already-trimmed input, as the source always calls it). -/
def jsParseFloat (l : List Char) : JSNum :=
  if l.head? = some '+' then parseFloatUnsigned l.tail false
  else if l.head? = some '-' then parseFloatUnsigned l.tail true
  else parseFloatUnsigned l false

/-- `TimeFormat` of src/shared/time.ts. -/
inductive TimeFormat where
  | hm
  | fractional
deriving DecidableEq

/-- `ParsedTime` of src/shared/time.ts. -/
structure ParsedTime where
  minutes : JSNum
  format : TimeFormat
  usedLegacyFractional : Bool
  hadOverflow : Bool
  source : String
deriving DecidableEq

/-- Options argument of `parseTimeInput`. -/
structure ParseOpts where
  format : Option TimeFormat
  allowLegacyInference : Option Bool
deriving DecidableEq

/-- `normalizeMinutes` of src/shared/time.ts:
`(value) => Math.max(0, Math.round(value))`. -/
def normalizeMinutes (v : JSNum) : JSNum := v.round.max0

/-- `parseHm` of src/shared/time.ts (lines 31-49).  `hours * 60 +
minuteDigits` is NaN when `parseInt` of the minute digits is NaN, and JS
`NaN >= 60` is false. -/
def parseHm (value : String) : Except String (JSNum × Bool) :=
  let asString := jsTrim value.data
  let numeric := jsParseFloat asString
  if numeric.isNaN || numeric.ltQ 0 then Except.error "Invalid time input"
  else
    let hoursPart := (splitDot asString).1
    let minutesPartRaw := (splitDot asString).2
    let hours : ℕ := (jsParseInt (if hoursPart.isEmpty then ['0'] else hoursPart)).getD 0
    let minuteDigits : JSNum :=
      if minutesPartRaw.isEmpty then JSNum.fin 0
      else
        match jsParseInt (jsPadEnd2 (minutesPartRaw.take 2)) with
        | some n => JSNum.fin n
        | none => JSNum.nan
    let totalMinutes := normalizeMinutes ((JSNum.fin ((hours * 60 : ℕ) : ℚ)).add minuteDigits)
    Except.ok (totalMinutes, minuteDigits.geQ 60)

/-- `parseFractional` of src/shared/time.ts (lines 51-59). -/
def parseFractional (value : String) : Except String (JSNum × Bool) :=
  let asString := jsTrim value.data
  let numeric := jsParseFloat asString
  if numeric.isNaN || numeric.ltQ 0 then Except.error "Invalid time input"
  else Except.ok (normalizeMinutes numeric.mul60, false)

/-- JS `parseInt` of a single-character string, as in `parseInt(decimal[1], 10)`:
a digit's value, or `none` for NaN. -/
def jsCharDigit? (c : Char) : Option ℕ :=
  if c.isDigit then some (charDigitVal c) else none

/-- Body of `shouldInferLegacy` on the decimal part (the code after
`const [hoursPart, decimal = ""] = asString.split(".")` in
src/shared/time.ts lines 63-96).  JS `NaN > 5` is false, so a non-digit
second character yields `true`. -/
def legacyDecimalDecision (decimal : List Char) : Bool :=
  if decimal.isEmpty then false
  else if decimal.length > 2 then true
  else if h2 : decimal.length = 2 then
    match jsCharDigit? (decimal.get ⟨1, by omega⟩) with
    | some d => if d > 5 then false else true
    | none => true
  else true

/-- `shouldInferLegacy` of src/shared/time.ts (lines 61-97).  Note the value
is NOT trimmed here (`String(value)` only). -/
def shouldInferLegacy (value : String) : Bool :=
  legacyDecimalDecision (splitDot value.data).2

/-- `parseTimeInput` of src/shared/time.ts (lines 99-124). -/
def parseTimeInput (value : String) (opts : ParseOpts) : Except String ParsedTime :=
  if opts.format = some TimeFormat.fractional ∨
      (opts.format = none ∧ ¬opts.allowLegacyInference = some false ∧
        shouldInferLegacy value = true) then
    match parseFractional value with
    | Except.error e => Except.error e
    | Except.ok (m, ov) => Except.ok ⟨m, TimeFormat.fractional, true, ov, value⟩
  else
    match parseHm value with
    | Except.error e => Except.error e
    | Except.ok (m, ov) => Except.ok ⟨m, TimeFormat.hm, false, ov, value⟩

/-- Deduction configuration row (src/shared/schema.ts `deductions`):
`serviceFee`, `tds`, `gst` are percentages, `transferFee` is a flat USD
amount. -/
structure DeductionCfg where
  serviceFee : ℚ
  tds : ℚ
  gst : ℚ
  transferFee : ℚ
deriving DecidableEq

/-- Computed financial snapshot stored on a TimeEntry
(src/shared/schema.ts `timeEntries`). -/
structure EntrySnapshot where
  grossUsd : ℚ
  deductionService : ℚ
  deductionGst : ℚ
  deductionTds : ℚ
  deductionTransfer : ℚ
  deductionTotal : ℚ
  netUsd : ℚ
  netInr : ℚ
  exchangeRate : ℚ
deriving DecidableEq

/-- Earnings computation of the POST /api/entries handler in
src/server/routes.ts (lines 354-388): the spec's canonical pipeline
(GST on the service fee, transfer fee included in the total, net floored
at 0). -/
def routesCreateEntryCalc (hours rate : ℚ) (d : DeductionCfg) (usdToInr : ℚ) : EntrySnapshot :=
  let grossUsd := hours * rate
  let serviceAmt := grossUsd * (d.serviceFee / 100)
  let tdsAmt := grossUsd * (d.tds / 100)
  let gstAmt := serviceAmt * (d.gst / 100)
  let transferAmt := d.transferFee
  let netBeforeTransfer := grossUsd - serviceAmt - tdsAmt - gstAmt
  let netUsd := max 0 (netBeforeTransfer - transferAmt)
  let totalDeductions := serviceAmt + tdsAmt + gstAmt + transferAmt
  let netInr := netUsd * usdToInr
  ⟨grossUsd, serviceAmt, gstAmt, tdsAmt, transferAmt, totalDeductions, netUsd, netInr, usdToInr⟩

/-- Earnings computation of `addEntry` in src/client/src/lib/store.ts
(lines 95-135).  Note: `netUsd = netBeforeTransfer - transferAmt` with NO
`Math.max(0, ...)` floor in this revision. -/
def storeAddEntryCalc (hours rate : ℚ) (d : DeductionCfg) (usdToInr : ℚ) : EntrySnapshot :=
  let grossUsd := hours * rate
  let serviceAmt := grossUsd * (d.serviceFee / 100)
  let tdsAmt := grossUsd * (d.tds / 100)
  let gstAmt := serviceAmt * (d.gst / 100)
  let netBeforeTransfer := grossUsd - serviceAmt - tdsAmt - gstAmt
  let transferAmt := d.transferFee
  let netUsd := netBeforeTransfer - transferAmt
  let totalDeductions := serviceAmt + tdsAmt + gstAmt + transferAmt
  let netInr := netUsd * usdToInr
  ⟨grossUsd, serviceAmt, gstAmt, tdsAmt, transferAmt, totalDeductions, netUsd, netInr, usdToInr⟩

/-- Project type tag (hourly rate vs fixed total contract). -/
inductive ProjectType where
  | hourly
  | fixed
deriving DecidableEq

/-- JS `Number(x) || y` for an optional numeric field `x`: `y` when the field
is absent (`Number(undefined)` is NaN, falsy) or when its value is 0 (also
falsy). -/
def jsOrNum (x : Option ℚ) (y : ℚ) : ℚ :=
  match x with
  | some q => if q = 0 then y else q
  | none => y

/-- grossUsd selection of the POST /api/entries handler revision bundled in
src/server/storage.ts (lines 528-539):
`grossUsd = Number(baseEntry.manualGrossAmount) || rate` for fixed projects,
`hours * rate` otherwise. -/
def storageEntryGross (ptype : ProjectType) (manualGrossAmount : Option ℚ)
    (hours rate : ℚ) : ℚ :=
  if ptype = ProjectType.fixed then jsOrNum manualGrossAmount rate else hours * rate

/-- The fields of an existing time entry used by the budget check in
src/client/src/components/entry-form.tsx. -/
structure EntryRow where
  projectId : ℕ
  grossUsd : ℚ
deriving DecidableEq

/-- `paidAmount` of entry-form.tsx (lines 111-112):
`entries.filter(e => e.projectId === project.id).reduce((sum, e) => sum + (e.grossUsd || 0), 0)`. -/
def paidAmount (pid : ℕ) (entries : List EntryRow) : ℚ :=
  (entries.filter (fun e => e.projectId == pid)).foldl (fun s e => s + e.grossUsd) 0

/-- `remaining` of entry-form.tsx (lines 58-60, 113):
`Math.max(0, project.rate - paidAmount)`. -/
def entryFormRemaining (rate : ℚ) (pid : ℕ) (entries : List EntryRow) : ℚ :=
  max 0 (rate - paidAmount pid entries)

/-- Outcome of submitting a milestone for a fixed project. -/
inductive SubmitOutcome where
  | budgetExceeded (remaining : ℚ)
  | created (manualGrossAmount : ℚ)
deriving DecidableEq

/-- Budget validation of `onSubmit` in entry-form.tsx (lines 109-123, 142-149)
for a fixed project: inside `if (isFixed && values.amount)`, a request with
`values.amount > remaining` shows the Budget Exceeded toast (carrying
`remaining`) and returns before `createEntry`; otherwise the entry is
submitted with `manualGrossAmount: values.amount`. -/
def entryFormSubmitFixed (rate : ℚ) (pid : ℕ) (entries : List EntryRow)
    (amount : ℚ) : SubmitOutcome :=
  if amount ≠ 0 ∧ amount > entryFormRemaining rate pid entries then
    SubmitOutcome.budgetExceeded (entryFormRemaining rate pid entries)
  else
    SubmitOutcome.created amount

/-- The field of a time entry used by the withdrawal balance in
src/unnamed/part_008. -/
structure EntryNet where
  netUsd : ℚ
deriving DecidableEq

/-- A persisted withdrawal's monetary fields (src/unnamed/part_008,
spec §3 Withdrawal). -/
structure WithdrawalRow where
  netEarnings : ℚ
  transactionFee : ℚ
  withdrawalAmount : ℚ
deriving DecidableEq

/-- `totalEarnings` of part_008 (line 36):
`timeEntries.reduce((sum, entry) => sum + (entry.netUsd || 0), 0)`. -/
def totalEarnings (entries : List EntryNet) : ℚ :=
  entries.foldl (fun s e => s + e.netUsd) 0

/-- `totalWithdrawn` of part_008 (line 37):
`withdrawals.reduce((sum, w) => sum + (w.netEarnings || 0), 0)`. -/
def totalWithdrawn (ws : List WithdrawalRow) : ℚ :=
  ws.foldl (fun s w => s + w.netEarnings) 0

/-- `availableBalance` of part_008 (line 38):
`Math.max(0, totalEarnings - totalWithdrawn)`. -/
def availableBalance (entries : List EntryNet) (ws : List WithdrawalRow) : ℚ :=
  max 0 (totalEarnings entries - totalWithdrawn ws)

/-- Outcome of submitting a withdrawal request. -/
inductive WithdrawOutcome where
  | insufficientFunds (available : ℚ)
  | created (w : WithdrawalRow)
deriving DecidableEq

/-- `onSubmit` of part_008 (lines 54-75): reject with the Insufficient Funds
toast (carrying the available balance) when
`values.netEarnings > availableBalance + 0.01`, otherwise create the
withdrawal with `withdrawalAmount = values.netEarnings - values.transactionFee`. -/
def part8SubmitWithdrawal (entries : List EntryNet) (ws : List WithdrawalRow)
    (netEarnings transactionFee : ℚ) : WithdrawOutcome :=
  if netEarnings > availableBalance entries ws + 1/100 then
    WithdrawOutcome.insufficientFunds (availableBalance entries ws)
  else
    WithdrawOutcome.created ⟨netEarnings, transactionFee, netEarnings - transactionFee⟩

/-- Monetary fields of a POST /api/withdrawals request body as accepted by
`insertWithdrawalSchema` (the client in part_008 sends `netEarnings`,
`transactionFee` and `withdrawalAmount`). -/
structure WithdrawalBody where
  netEarnings : ℚ
  transactionFee : ℚ
  withdrawalAmount : ℚ
deriving DecidableEq

/-- Modelled from the spec: the Ledger Repository's `createWithdrawal`
adapter is not under src/ (only its caller, the POST /api/withdrawals
handler in src/server/storage.ts lines 606-619, is).  Per spec §2/§6 the
repository is a set of "thin persistence adapter"s with standard CRUD
shape, so the record it is given is stored unchanged. -/
def createWithdrawalAdapter (body : WithdrawalBody) : WithdrawalRow :=
  ⟨body.netEarnings, body.transactionFee, body.withdrawalAmount⟩

/-- POST /api/withdrawals handler of src/server/storage.ts (lines 606-619):
`const validated = insertWithdrawalSchema.parse(req.body);
 const withdrawal = await storage.createWithdrawal(validated);` —
the validated caller-supplied body is persisted with no recomputation of
any field. -/
def serverCreateWithdrawal (body : WithdrawalBody) : WithdrawalRow :=
  createWithdrawalAdapter body

/-- Decision table of spec §4.2 on the decimal-digit part of the value
(`none` = no decimal point), written from the spec's words for comparison
with `shouldInferLegacy`: no decimal digits → H.MM (false); more than 2
digits → fractional (true); exactly 2 digits → H.MM exactly when the second
digit exceeds 5; exactly 1 digit → fractional (true). -/
def specLegacyTable : Option (List Char) → Bool
  | none => false
  | some d =>
    if d.isEmpty then false
    else if d.length > 2 then true
    else if h : d.length = 2 then decide (charDigitVal (d.get ⟨1, by omega⟩) ≤ 5)
    else true

/-- The decimal string formed from an integer-digit part and an optional
fractional-digit part. -/
def mkDecString (intDigits : List Char) (fracPart : Option (List Char)) : String :=
  String.mk (intDigits ++ (match fracPart with | none => [] | some d => '.' :: d))

/-- Minute count described by the spec for H.MM parsing: the first two
digits of the fractional part, a single digit right-padded with a trailing
'0', an absent fractional part counting as 0. -/
def specHmMinuteCount : Option (List Char) → ℕ
  | none => 0
  | some d => digitsToNat (jsPadEnd2 (d.take 2))

theorem qAdd_eq (a b : ℚ) : qAdd a b = a + b := by
  have hb : ((b.den : ℤ)) ≠ 0 := Int.natCast_ne_zero.mpr b.den_ne_zero
  have ha : ((a.den : ℤ)) ≠ 0 := Int.natCast_ne_zero.mpr a.den_ne_zero
  conv_rhs => rw [← Rat.num_divInt_den a, ← Rat.num_divInt_den b]
  rw [Rat.divInt_add_divInt _ _ ha hb, qAdd]

theorem qMul_eq (a b : ℚ) : qMul a b = a * b := by
  conv_rhs => rw [← Rat.num_divInt_den a, ← Rat.num_divInt_den b]
  rw [Rat.divInt_mul_divInt', qMul]

theorem dropWhile_eq_self_of_false {p : Char → Bool} {l : List Char}
    (h : ∀ c ∈ l, p c = false) : l.dropWhile p = l := by
  cases l with
  | nil => rfl
  | cons a t => simp [List.dropWhile_cons, h a (by simp)]

theorem takeWhile_append_of {p : Char → Bool} {l1 l2 : List Char}
    (h1 : ∀ c ∈ l1, p c = true) (h2 : ∀ c, l2.head? = some c → p c = false) :
    (l1 ++ l2).takeWhile p = l1 := by
  induction l1 with
  | nil =>
    cases l2 with
    | nil => rfl
    | cons a t => simp [List.takeWhile_cons, h2 a rfl]
  | cons a t ih =>
    simp only [List.cons_append, List.takeWhile_cons, h1 a (by simp), if_true]
    rw [ih (fun c hc => h1 c (by simp [hc]))]

theorem dropWhile_append_of {p : Char → Bool} {l1 l2 : List Char}
    (h1 : ∀ c ∈ l1, p c = true) (h2 : ∀ c, l2.head? = some c → p c = false) :
    (l1 ++ l2).dropWhile p = l2 := by
  induction l1 with
  | nil =>
    cases l2 with
    | nil => rfl
    | cons a t => simp [List.dropWhile_cons, h2 a rfl]
  | cons a t ih =>
    simp only [List.cons_append, List.dropWhile_cons, h1 a (by simp), if_true]
    exact ih (fun c hc => h1 c (by simp [hc]))

theorem takeWhile_eq_self_of_true {p : Char → Bool} {l : List Char}
    (h : ∀ c ∈ l, p c = true) : l.takeWhile p = l := by
  induction l with
  | nil => rfl
  | cons a t ih =>
    simp only [List.takeWhile_cons, h a (by simp), if_true]
    rw [ih (fun c hc => h c (by simp [hc]))]

theorem dropWhile_eq_nil_of_true {p : Char → Bool} {l : List Char}
    (h : ∀ c ∈ l, p c = true) : l.dropWhile p = [] := by
  induction l with
  | nil => rfl
  | cons a t ih =>
    simp only [List.dropWhile_cons, h a (by simp), if_true]
    exact ih (fun c hc => h c (by simp [hc]))

theorem char_beq_false_of_digit {c : Char} (hc : c.isDigit = true) (d : Char)
    (hd : d.isDigit = false) : (c == d) = false := by
  rw [beq_eq_false_iff_ne]
  intro h
  rw [h, hd] at hc
  cases hc

theorem char_beq_false_of_digit_symm {c : Char} (hc : c.isDigit = true) (d : Char)
    (hd : d.isDigit = false) : (d == c) = false := by
  rw [beq_eq_false_iff_ne]
  intro h
  rw [← h, hd] at hc
  cases hc

theorem not_ws_of_digit {c : Char} (hc : c.isDigit = true) : isJsWhitespace c = false := by
  unfold isJsWhitespace
  rw [char_beq_false_of_digit hc ' ' (by decide), char_beq_false_of_digit hc '\t' (by decide),
    char_beq_false_of_digit hc '\n' (by decide), char_beq_false_of_digit hc '\r' (by decide)]
  rfl

theorem jsTrim_eq_self {l : List Char} (h : ∀ c ∈ l, isJsWhitespace c = false) :
    jsTrim l = l := by
  unfold jsTrim
  rw [dropWhile_eq_self_of_false h,
    dropWhile_eq_self_of_false (fun c hc => h c (List.mem_reverse.mp hc)), List.reverse_reverse]

theorem bne_dot_of_digit {c : Char} (hc : c.isDigit = true) : (!(c == '.')) = true := by
  rw [char_beq_false_of_digit hc '.' (by decide)]
  rfl

theorem splitDot_digits {d1 : List Char} (h1 : ∀ c ∈ d1, c.isDigit = true) :
    splitDot d1 = (d1, []) := by
  unfold splitDot
  rw [takeWhile_eq_self_of_true (fun c hc => bne_dot_of_digit (h1 c hc)),
    dropWhile_eq_nil_of_true (fun c hc => bne_dot_of_digit (h1 c hc))]

theorem splitDot_decimal {d1 d2 : List Char} (h1 : ∀ c ∈ d1, c.isDigit = true)
    (h2 : ∀ c ∈ d2, c.isDigit = true) :
    splitDot (d1 ++ '.' :: d2) = (d1, d2) := by
  unfold splitDot
  rw [@takeWhile_append_of (fun c => !(c == '.')) d1 ('.' :: d2)
      (fun c hc => bne_dot_of_digit (h1 c hc)) (by intro c hc; cases hc; rfl),
    @dropWhile_append_of (fun c => !(c == '.')) d1 ('.' :: d2)
      (fun c hc => bne_dot_of_digit (h1 c hc)) (by intro c hc; cases hc; rfl)]
  simp only
  rw [takeWhile_eq_self_of_true (fun c hc => bne_dot_of_digit (h2 c hc))]

theorem jsParseInt_digits {l : List Char} (h : ∀ c ∈ l, c.isDigit = true) (hne : l ≠ []) :
    jsParseInt l = some (digitsToNat l) := by
  unfold jsParseInt
  rw [takeWhile_eq_self_of_true h]
  simp [hne]

theorem padEnd2_digits {l : List Char} (h : ∀ c ∈ l, c.isDigit = true) :
    ∀ c ∈ jsPadEnd2 l, c.isDigit = true := by
  intro c hc
  rcases List.mem_append.mp hc with hm | hm
  · exact h c hm
  · rw [List.eq_of_mem_replicate hm]
    decide

theorem take_digits {l : List Char} (h : ∀ c ∈ l, c.isDigit = true) (n : ℕ) :
    ∀ c ∈ l.take n, c.isDigit = true :=
  fun c hc => h c (List.take_subset n l hc)

theorem infinity_leading_false {l : List Char}
    (h : ∀ c, l.head? = some c → (c.isDigit = true ∨ c = '.')) :
    infinityChars.isPrefixOf l = false := by
  cases l with
  | nil => rfl
  | cons a t =>
    have ha : ('I' == a) = false := by
      rcases h a rfl with hd | hd
      · exact char_beq_false_of_digit_symm hd 'I' (by decide)
      · rw [hd]
        decide
    simp [infinityChars, List.isPrefixOf, ha]

theorem head_decimal {d1 d2 : List Char} (h1 : ∀ c ∈ d1, c.isDigit = true) :
    ∀ c, (d1 ++ '.' :: d2).head? = some c → (c.isDigit = true ∨ c = '.') := by
  cases d1 with
  | nil =>
    intro c hc
    simp only [List.nil_append, List.head?_cons, Option.some.injEq] at hc
    right
    rw [← hc]
  | cons a t =>
    intro c hc
    simp only [List.cons_append, List.head?_cons, Option.some.injEq] at hc
    left
    rw [← hc]
    exact h1 a (by simp)

theorem head_digits {d1 : List Char} (h1 : ∀ c ∈ d1, c.isDigit = true) :
    ∀ c, d1.head? = some c → (c.isDigit = true ∨ c = '.') := by
  cases d1 with
  | nil => intro c hc; cases hc
  | cons a t =>
    intro c hc
    simp only [List.head?_cons, Option.some.injEq] at hc
    left
    rw [← hc]
    exact h1 a (by simp)

theorem head_not_plus {l : List Char}
    (h : ∀ c, l.head? = some c → (c.isDigit = true ∨ c = '.')) :
    ¬ l.head? = some '+' := by
  intro hc
  rcases h _ hc with hd | hd
  · cases hd
  · cases hd

theorem head_not_minus {l : List Char}
    (h : ∀ c, l.head? = some c → (c.isDigit = true ∨ c = '.')) :
    ¬ l.head? = some '-' := by
  intro hc
  rcases h _ hc with hd | hd
  · cases hd
  · cases hd

theorem jsParseFloat_decimal {d1 d2 : List Char}
    (h1 : ∀ c ∈ d1, c.isDigit = true) (h2 : ∀ c ∈ d2, c.isDigit = true)
    (hne : ¬(d1 = [] ∧ d2 = [])) :
    jsParseFloat (d1 ++ '.' :: d2) =
      JSNum.fin (Rat.divInt
        ((digitsToNat d1 : ℤ) * (10 : ℤ) ^ d2.length + (digitsToNat d2 : ℤ))
        ((10 : ℤ) ^ d2.length)) := by
  have hhead := @head_decimal d1 d2 h1
  unfold jsParseFloat
  rw [if_neg (head_not_plus hhead), if_neg (head_not_minus hhead)]
  unfold parseFloatUnsigned
  rw [infinity_leading_false hhead]
  rw [@takeWhile_append_of Char.isDigit d1 ('.' :: d2) h1 (by intro c hc; cases hc; rfl),
    @dropWhile_append_of Char.isDigit d1 ('.' :: d2) h1 (by intro c hc; cases hc; rfl)]
  simp only [List.head?_cons, if_pos rfl, List.tail_cons, if_false, Bool.false_eq_true,
    reduceIte]
  rw [takeWhile_eq_self_of_true h2, dropWhile_eq_nil_of_true h2]
  rw [if_neg (by simpa [List.isEmpty_iff] using hne)]
  simp [applyExponent]

theorem digitsToNat_nil : digitsToNat [] = 0 := rfl

theorem jsParseFloat_digits {d1 : List Char}
    (h1 : ∀ c ∈ d1, c.isDigit = true) (hne : d1 ≠ []) :
    jsParseFloat d1 = JSNum.fin ((digitsToNat d1 : ℚ)) := by
  have hhead := head_digits h1
  unfold jsParseFloat
  rw [if_neg (head_not_plus hhead), if_neg (head_not_minus hhead)]
  unfold parseFloatUnsigned
  rw [infinity_leading_false hhead, takeWhile_eq_self_of_true h1, dropWhile_eq_nil_of_true h1]
  have hE : d1.isEmpty = false := by simp [List.isEmpty_iff, hne]
  simp [applyExponent, hE, digitsToNat_nil]

theorem mkDecString_data (d1 : List Char) (fo : Option (List Char)) :
    (mkDecString d1 fo).data =
      d1 ++ (match fo with | none => [] | some d => '.' :: d) := rfl

theorem qAdd_natCast (a b : ℕ) : qAdd ((a : ℕ) : ℚ) ((b : ℕ) : ℚ) = ((a + b : ℕ) : ℚ) := by
  rw [qAdd_eq]
  push_cast
  ring

theorem qAdd_natCast_zero (a : ℕ) : qAdd ((a : ℕ) : ℚ) 0 = ((a : ℕ) : ℚ) := by
  rw [qAdd_eq, add_zero]

theorem normalizeMinutes_natCast (n : ℕ) :
    normalizeMinutes (JSNum.fin ((n : ℕ) : ℚ)) = JSNum.fin ((n : ℕ) : ℚ) := by
  have hfloor : Rat.floor (qAdd ((n : ℕ) : ℚ) (Rat.divInt 1 2)) = (n : ℤ) := by
    rw [qAdd_eq]
    have h2 : (Rat.divInt 1 2 : ℚ) = 1 / 2 := by
      rw [Rat.divInt_eq_div]
      norm_num
    rw [h2]
    show Int.floor ((n : ℚ) + 1 / 2) = (n : ℤ)
    rw [add_comm, Int.floor_add_nat]
    norm_num
  unfold normalizeMinutes
  simp only [JSNum.round, hfloor, JSNum.max0]
  norm_num

theorem geQ_natCast_sixty (m : ℕ) :
    (JSNum.fin ((m : ℕ) : ℚ)).geQ 60 = decide (60 ≤ m) := by
  show decide ((60 : ℚ) ≤ ((m : ℕ) : ℚ)) = decide (60 ≤ m)
  rw [decide_eq_decide]
  exact_mod_cast Iff.rfl

theorem ltQ_zero_false_of_nonneg {q : ℚ} (h : 0 ≤ q) : (JSNum.fin q).ltQ 0 = false := by
  show decide (q < 0) = false
  exact decide_eq_false (not_lt.mpr h)

theorem parseHm_decimal (d1 : List Char) (fo : Option (List Char))
    (h1 : ∀ c ∈ d1, c.isDigit = true)
    (h2 : ∀ d2, fo = some d2 → ∀ c ∈ d2, c.isDigit = true)
    (h3 : d1 ≠ [] ∨ ∃ d2, fo = some d2 ∧ d2 ≠ []) :
    parseHm (mkDecString d1 fo) =
      Except.ok (JSNum.fin ((60 * digitsToNat d1 + specHmMinuteCount fo : ℕ) : ℚ),
        decide (60 ≤ specHmMinuteCount fo)) := by
  cases fo with
  | none =>
    have hd1 : d1 ≠ [] := by
      rcases h3 with h | ⟨d2, hfo, _⟩
      · exact h
      · cases hfo
    have hws : ∀ c ∈ d1, isJsWhitespace c = false := fun c hc => not_ws_of_digit (h1 c hc)
    have hE : d1.isEmpty = false := by simp [List.isEmpty_iff, hd1]
    unfold parseHm
    rw [mkDecString_data]
    simp only [List.append_nil]
    rw [jsTrim_eq_self hws, jsParseFloat_digits h1 hd1, splitDot_digits h1]
    simp only [JSNum.isNaN, ltQ_zero_false_of_nonneg (Nat.cast_nonneg _), Bool.or_self,
      Bool.false_eq_true, reduceIte, hE, List.isEmpty_nil, jsParseInt_digits h1 hd1,
      Option.getD_some, JSNum.add]
    rw [qAdd_natCast_zero, normalizeMinutes_natCast]
    refine congrArg Except.ok (Prod.ext ?_ ?_)
    · show JSNum.fin _ = JSNum.fin _
      refine congrArg JSNum.fin ?_
      push_cast [specHmMinuteCount]
      ring
    · show (JSNum.fin 0).geQ 60 = decide (60 ≤ specHmMinuteCount none)
      decide
  | some d2 =>
    have h2d : ∀ c ∈ d2, c.isDigit = true := h2 d2 rfl
    have hws : ∀ c ∈ d1 ++ '.' :: d2, isJsWhitespace c = false := by
      intro c hc
      rcases List.mem_append.mp hc with hm | hm
      · exact not_ws_of_digit (h1 c hm)
      · rcases List.mem_cons.mp hm with hm | hm
        · rw [hm]
          decide
        · exact not_ws_of_digit (h2d c hm)
    have hne : ¬(d1 = [] ∧ d2 = []) := by
      rintro ⟨ha, hb⟩
      rcases h3 with h | ⟨d2x, hfo, hx⟩
      · exact h ha
      · cases hfo
        exact hx hb
    have hhours : (jsParseInt (if d1.isEmpty = true then ['0'] else d1)).getD 0
        = digitsToNat d1 := by
      by_cases hd : d1 = []
      · subst hd
        decide
      · have hEd : d1.isEmpty = false := by simp [List.isEmpty_iff, hd]
        rw [hEd]
        simp only [Bool.false_eq_true, reduceIte]
        rw [jsParseInt_digits h1 hd]
        rfl
    have hq0 : (0:ℚ) ≤ Rat.divInt
        ((digitsToNat d1 : ℤ) * (10 : ℤ) ^ d2.length + (digitsToNat d2 : ℤ))
        ((10 : ℤ) ^ d2.length) :=
      Rat.divInt_nonneg (by positivity) (by positivity)
    unfold parseHm
    rw [mkDecString_data]
    simp only
    rw [jsTrim_eq_self hws, jsParseFloat_decimal h1 h2d hne, splitDot_decimal h1 h2d]
    simp only [JSNum.isNaN, ltQ_zero_false_of_nonneg hq0, Bool.or_self,
      Bool.false_eq_true, reduceIte, hhours]
    by_cases hd2 : d2 = []
    · subst hd2
      simp only [List.isEmpty_nil, reduceIte, JSNum.add]
      rw [qAdd_natCast_zero, normalizeMinutes_natCast]
      refine congrArg Except.ok (Prod.ext ?_ ?_)
      · refine congrArg JSNum.fin ?_
        have hz : specHmMinuteCount (some []) = 0 := by decide
        rw [hz]
        push_cast
        ring
      · show (JSNum.fin 0).geQ 60 = decide (60 ≤ specHmMinuteCount (some []))
        decide
    · have hEd2 : d2.isEmpty = false := by simp [List.isEmpty_iff, hd2]
      have hpd : ∀ c ∈ jsPadEnd2 (d2.take 2), c.isDigit = true :=
        padEnd2_digits (take_digits h2d 2)
      have hpne : jsPadEnd2 (d2.take 2) ≠ [] := by
        cases h : d2.take 2 with
        | nil => simp [jsPadEnd2, h]
        | cons a t => simp [jsPadEnd2, h]
      simp only [hEd2, Bool.false_eq_true, reduceIte, jsParseInt_digits hpd hpne,
        JSNum.add]
      rw [qAdd_natCast, normalizeMinutes_natCast, geQ_natCast_sixty]
      refine congrArg Except.ok (Prod.ext ?_ ?_)
      · refine congrArg JSNum.fin ?_
        push_cast [specHmMinuteCount]
        ring
      · simp [specHmMinuteCount]

theorem mkDecString_data_none (d1 : List Char) : (mkDecString d1 none).data = d1 :=
  List.append_nil d1

theorem mkDecString_data_some (d1 d : List Char) :
    (mkDecString d1 (some d)).data = d1 ++ '.' :: d := rfl

theorem jsCharDigit_of_digit {c : Char} (hc : c.isDigit = true) :
    jsCharDigit? c = some (charDigitVal c) := by
  unfold jsCharDigit?
  rw [if_pos hc]

theorem legacyDecimalDecision_eq_table (d2 : List Char)
    (h2 : ∀ c ∈ d2, c.isDigit = true) :
    legacyDecimalDecision d2 = specLegacyTable (some d2) := by
  by_cases hE : d2 = []
  · subst hE
    decide
  · by_cases hlen : d2.length > 2
    · have hEf : d2.isEmpty = false := by simp [List.isEmpty_iff, hE]
      unfold legacyDecimalDecision specLegacyTable
      simp [hEf, hlen]
    · by_cases hlen2 : d2.length = 2
      · rcases List.length_eq_two.mp hlen2 with ⟨a, b, rfl⟩
        have hb : b.isDigit = true := h2 b (by simp)
        unfold legacyDecimalDecision specLegacyTable
        simp only [List.isEmpty_cons, Bool.false_eq_true, reduceIte, List.length_cons,
          List.length_nil, gt_iff_lt, Nat.reduceAdd, Nat.lt_irrefl, dite_true, reduceIte]
        have hget : ∀ p : 1 < [a, b].length, [a, b].get ⟨1, p⟩ = b := fun p => rfl
        simp only [hget]
        rw [jsCharDigit_of_digit hb]
        simp only
        by_cases h5 : charDigitVal b > 5
        · rw [if_pos h5, decide_eq_false (by omega)]
        · rw [if_neg h5, decide_eq_true (by omega)]
      · have hlen1 : d2.length = 1 := by
          have : d2.length ≠ 0 := by simp [hE]
          omega
        have hEf : d2.isEmpty = false := by simp [List.isEmpty_iff, hE]
        unfold legacyDecimalDecision specLegacyTable
        simp [hEf, hlen1]

/-- C1: for every non-negative decimal input parsed with format "hm",
`parseTimeInput` returns minutes equal to the integer part times 60 plus the
minute count read from the first two fractional digits (one digit is padded
with a trailing '0', extra digits are ignored, an absent fractional part is
0), and `hadOverflow` is true exactly when that minute count is ≥ 60.  The
instance `"1.5" ↦ 110` is checked in the witness. -/
theorem claim1_parseTimeInput_hm (d1 : List Char) (fo : Option (List Char))
    (h1 : ∀ c ∈ d1, c.isDigit = true)
    (h2 : ∀ d2, fo = some d2 → ∀ c ∈ d2, c.isDigit = true)
    (h3 : d1 ≠ [] ∨ ∃ d2, fo = some d2 ∧ d2 ≠ []) :
    parseTimeInput (mkDecString d1 fo) ⟨some TimeFormat.hm, none⟩ =
      Except.ok ⟨JSNum.fin ((60 * digitsToNat d1 + specHmMinuteCount fo : ℕ) : ℚ),
        TimeFormat.hm, false, decide (60 ≤ specHmMinuteCount fo),
        mkDecString d1 fo⟩ := by
  unfold parseTimeInput
  rw [if_neg (by simp)]
  rw [parseHm_decimal d1 fo h1 h2 h3]

/-- C1 witness: `parseTimeInput("1.5", {format: "hm"})` yields 110 minutes
with no overflow. -/
theorem claim1_witness :
    parseTimeInput (mkDecString ['1'] (some ['5'])) ⟨some TimeFormat.hm, none⟩ =
      Except.ok ⟨JSNum.fin 110, TimeFormat.hm, false, false,
        mkDecString ['1'] (some ['5'])⟩ := by
  rw [claim1_parseTimeInput_hm ['1'] (some ['5']) (by decide)
    (by intro d2 h; injection h with h; rw [← h]; decide) (Or.inl (by decide))]
  decide

/-- C2 counterexample: `parseTimeInput("1.75", {format: "hm"})` returns 135
minutes (1h + 75m), not the 155 the claim states; `hadOverflow` is true. -/
theorem claim2_counterexample :
    parseTimeInput "1.75" ⟨some TimeFormat.hm, none⟩ =
      Except.ok ⟨JSNum.fin 135, TimeFormat.hm, false, true, "1.75"⟩ ∧
    (135 : ℚ) ≠ 155 := by
  decide

/-- C2 amended: `parseTimeInput("1.75", {format: "hm"})` returns minutes =
135 (the literal sum of 1 hour plus 75 minutes, not normalized by carrying
75 minutes into hours) and `hadOverflow` = true. -/
theorem claim2_amended_hm175 :
    parseTimeInput "1.75" ⟨some TimeFormat.hm, none⟩ =
      Except.ok ⟨JSNum.fin 135, TimeFormat.hm, false, true, "1.75"⟩ := by
  decide

/-- C3: `shouldInferLegacy` implements exactly the spec's decision table on
the decimal digits of the value's string form: no decimal digits → false;
more than 2 digits → true; exactly 2 digits → false iff the second digit
exceeds 5; exactly 1 digit → true. -/
theorem claim3_shouldInferLegacy_table (d1 : List Char) (fo : Option (List Char))
    (h1 : ∀ c ∈ d1, c.isDigit = true)
    (h2 : ∀ d2, fo = some d2 → ∀ c ∈ d2, c.isDigit = true) :
    shouldInferLegacy (mkDecString d1 fo) = specLegacyTable fo := by
  cases fo with
  | none =>
    unfold shouldInferLegacy
    rw [mkDecString_data_none, splitDot_digits h1]
    rfl
  | some d2 =>
    unfold shouldInferLegacy
    rw [mkDecString_data_some, splitDot_decimal h1 (h2 d2 rfl)]
    exact legacyDecimalDecision_eq_table d2 (h2 d2 rfl)

/-- C3 witness: `shouldInferLegacy("1.67") = false` (second digit 7 > 5) and
`shouldInferLegacy("1.60") = true` (second digit 0 ≤ 5). -/
theorem claim3_witness :
    shouldInferLegacy (mkDecString ['1'] (some ['6', '7'])) = false ∧
    shouldInferLegacy (mkDecString ['1'] (some ['6', '0'])) = true := by
  constructor
  · rw [claim3_shouldInferLegacy_table ['1'] (some ['6', '7']) (by decide)
      (by intro d2 h; injection h with h; rw [← h]; decide)]
    decide
  · rw [claim3_shouldInferLegacy_table ['1'] (some ['6', '0']) (by decide)
      (by intro d2 h; injection h with h; rw [← h]; decide)]
    decide

/-- C6 counterexample: the input `"Infinity"` parses to +Infinity (not a
finite number), yet `parseTimeInput` does not raise: it returns 0 minutes
through the H.MM path (`parseInt("Infinity")` is NaN, coerced to 0 by
`|| 0`), contradicting the claim that every non-finite value is rejected
and never coerced to a minute count. -/
theorem claim6_counterexample :
    jsParseFloat (jsTrim "Infinity".data) = JSNum.inf ∧
    parseTimeInput "Infinity" ⟨none, none⟩ =
      Except.ok ⟨JSNum.fin 0, TimeFormat.hm, false, false, "Infinity"⟩ := by
  decide

/-- C6 amended: `parseTimeInput` raises `InvalidTimeInput` for every input
whose parsed numeric value is NaN (non-numeric or unparseable) or negative,
never coercing such values to a minute count; inputs parsing to +Infinity
are however accepted (the counterexample shows `"Infinity"` yields 0
minutes via the H.MM path). -/
theorem claim6_amended_reject : ∀ (s : String) (opts : ParseOpts),
    ((jsParseFloat (jsTrim s.data)).isNaN = true ∨
      (jsParseFloat (jsTrim s.data)).ltQ 0 = true) →
    parseTimeInput s opts = Except.error "Invalid time input" := by
  intro s opts h
  have hguard : ((jsParseFloat (jsTrim s.data)).isNaN ||
      (jsParseFloat (jsTrim s.data)).ltQ 0) = true := by
    rcases h with h | h <;> simp [h]
  unfold parseTimeInput
  split
  · unfold parseFractional
    rw [if_pos hguard]
  · unfold parseHm
    rw [if_pos hguard]

/-- C6 witness: the non-numeric input `"abc"` and the negative input `"-1"`
are rejected. -/
theorem claim6_witness :
    parseTimeInput "abc" ⟨none, none⟩ = Except.error "Invalid time input" ∧
    parseTimeInput "-1" ⟨none, none⟩ = Except.error "Invalid time input" :=
  ⟨claim6_amended_reject "abc" ⟨none, none⟩ (Or.inl (by decide)),
   claim6_amended_reject "-1" ⟨none, none⟩ (Or.inr (by decide))⟩

theorem foldl_add_eq_sum {α : Type} (f : α → ℚ) (l : List α) (a : ℚ) :
    l.foldl (fun s e => s + f e) a = a + (l.map f).sum := by
  induction l generalizing a with
  | nil => simp
  | cons x t ih =>
    simp only [List.foldl_cons, List.map_cons, List.sum_cons, ih]
    ring

/-- C4: in the canonical earnings pipeline (the routes.ts POST /api/entries
handler), for every gross amount (here `hours * rate`; `rate = 1` realizes
any gross) and every deduction config: the service fee and TDS are
percentages of gross, GST is a percentage of the service fee alone (not of
gross), the transfer deduction is the flat `transferFee`, and
`deductionTotal` is the sum of all four components — transfer fee
included. -/
theorem claim4_canonical_deductions (hours rate : ℚ) (d : DeductionCfg) (fx : ℚ) :
    (routesCreateEntryCalc hours rate d fx).deductionService =
      (routesCreateEntryCalc hours rate d fx).grossUsd * (d.serviceFee / 100) ∧
    (routesCreateEntryCalc hours rate d fx).deductionTds =
      (routesCreateEntryCalc hours rate d fx).grossUsd * (d.tds / 100) ∧
    (routesCreateEntryCalc hours rate d fx).deductionGst =
      (routesCreateEntryCalc hours rate d fx).deductionService * (d.gst / 100) ∧
    (routesCreateEntryCalc hours rate d fx).deductionTransfer = d.transferFee ∧
    (routesCreateEntryCalc hours rate d fx).deductionTotal =
      (routesCreateEntryCalc hours rate d fx).deductionService +
        (routesCreateEntryCalc hours rate d fx).deductionTds +
        (routesCreateEntryCalc hours rate d fx).deductionGst +
        (routesCreateEntryCalc hours rate d fx).deductionTransfer :=
  ⟨rfl, rfl, rfl, rfl, rfl⟩

/-- C5 counterexample: through the client store's `addEntry` pipeline (a
cited creation path), an entry with hours = 0 under the default config
(service 10%, tds 0.1%, gst 18%, transfer fee $0.99, rate $25/h, 84 ₹/$)
gets `netUsd = -0.99`, which is negative and differs from
`max(0, grossUsd - deductionTotal) = 0` — refuting the claim for entries
created through that pipeline. -/
theorem claim5_counterexample :
    (storeAddEntryCalc 0 25 ⟨10, 1/10, 18, 99/100⟩ 84).netUsd = -(99/100) ∧
    (storeAddEntryCalc 0 25 ⟨10, 1/10, 18, 99/100⟩ 84).netUsd ≠
      max 0 ((storeAddEntryCalc 0 25 ⟨10, 1/10, 18, 99/100⟩ 84).grossUsd -
        (storeAddEntryCalc 0 25 ⟨10, 1/10, 18, 99/100⟩ 84).deductionTotal) := by
  have h1 : (storeAddEntryCalc 0 25 ⟨10, 1/10, 18, 99/100⟩ 84).netUsd = -(99/100) := by
    simp only [storeAddEntryCalc]
    norm_num
  have h2 : max (0:ℚ) ((storeAddEntryCalc 0 25 ⟨10, 1/10, 18, 99/100⟩ 84).grossUsd -
      (storeAddEntryCalc 0 25 ⟨10, 1/10, 18, 99/100⟩ 84).deductionTotal) = 0 := by
    simp only [storeAddEntryCalc]
    rw [show (0:ℚ) * 25 - (0 * 25 * (10 / 100) + 0 * 25 * ((1:ℚ)/10 / 100) +
      0 * 25 * (10 / 100) * (18 / 100) + 99/100) = -(99/100) by ring]
    rw [max_eq_left (by norm_num)]
  refine ⟨h1, ?_⟩
  rw [h1, h2]
  norm_num

/-- C5 amended: entries created through the server routes.ts pipeline do
satisfy `netUsd = max(0, grossUsd − deductionTotal)` (never negative) and
`netInr = netUsd × exchangeRate`; the client store's `addEntry` pipeline
computes `netUsd = grossUsd − deductionTotal` WITHOUT the max-0 floor (so
its `netUsd` can be negative), with `netInr = netUsd × exchangeRate`
still. -/
theorem claim5_amended_net (hours rate : ℚ) (d : DeductionCfg) (fx : ℚ) :
    (routesCreateEntryCalc hours rate d fx).netUsd =
      max 0 ((routesCreateEntryCalc hours rate d fx).grossUsd -
        (routesCreateEntryCalc hours rate d fx).deductionTotal) ∧
    (routesCreateEntryCalc hours rate d fx).netInr =
      (routesCreateEntryCalc hours rate d fx).netUsd *
        (routesCreateEntryCalc hours rate d fx).exchangeRate ∧
    (storeAddEntryCalc hours rate d fx).netUsd =
      (storeAddEntryCalc hours rate d fx).grossUsd -
        (storeAddEntryCalc hours rate d fx).deductionTotal ∧
    (storeAddEntryCalc hours rate d fx).netInr =
      (storeAddEntryCalc hours rate d fx).netUsd *
        (storeAddEntryCalc hours rate d fx).exchangeRate := by
  refine ⟨?_, rfl, ?_, rfl⟩
  · simp only [routesCreateEntryCalc]
    congr 1
    ring
  · simp only [storeAddEntryCalc]
    ring

/-- C7 (code bug evaluation): on a fixed project with rate 100, a
caller-supplied `manualGrossAmount` of 0 is NOT stored as gross 0 — the
falsy-`||` fallback stores the project rate 100 instead, although the
handler's own comment says the fallback is only for an absent amount. -/
theorem claim7_code_bug_eval :
    storageEntryGross ProjectType.fixed (some 0) 0 100 = 100 ∧ (100 : ℚ) ≠ 0 ∧
    (∀ m : ℚ, m ≠ 0 → storageEntryGross ProjectType.fixed (some m) 0 100 = m) := by
  refine ⟨by decide, by decide, ?_⟩
  intro m hm
  show (if m = 0 then (100 : ℚ) else m) = m
  rw [if_neg hm]

/-- C8: for a fixed-price project, the remaining budget equals
`max(0, project.rate − Σ grossUsd of the project's entries)`, and a
milestone request whose amount exceeds that remaining value is rejected
with the Budget Exceeded outcome carrying the computed remaining amount —
no entry is created. -/
theorem claim8_budget_validation (rate : ℚ) (pid : ℕ) (entries : List EntryRow)
    (amount : ℚ) (h : amount > entryFormRemaining rate pid entries) :
    entryFormRemaining rate pid entries =
      max 0 (rate -
        ((entries.filter (fun e => e.projectId == pid)).map (fun e => e.grossUsd)).sum) ∧
    entryFormSubmitFixed rate pid entries amount =
      SubmitOutcome.budgetExceeded (entryFormRemaining rate pid entries) := by
  constructor
  · unfold entryFormRemaining paidAmount
    rw [foldl_add_eq_sum, zero_add]
  · have h0 : (0 : ℚ) ≤ entryFormRemaining rate pid entries := le_max_left 0 _
    have hne : amount ≠ 0 := ne_of_gt (lt_of_le_of_lt h0 h)
    unfold entryFormSubmitFixed
    rw [if_pos ⟨hne, h⟩]

/-- C8 witness: rate $100, one prior entry of $80 on the project leaves
$20 remaining; a $30 milestone is rejected with Budget Exceeded carrying
$20. -/
theorem claim8_witness :
    entryFormRemaining 100 1 [⟨1, 80⟩] = 20 ∧
    entryFormSubmitFixed 100 1 [⟨1, 80⟩] 30 = SubmitOutcome.budgetExceeded 20 := by
  have hrem : entryFormRemaining 100 1 [⟨1, 80⟩] = 20 := by
    unfold entryFormRemaining paidAmount
    simp only [List.filter, List.foldl]
    norm_num
  refine ⟨hrem, ?_⟩
  have h : (30 : ℚ) > entryFormRemaining 100 1 [⟨1, 80⟩] := by
    rw [hrem]
    norm_num
  rw [(claim8_budget_validation 100 1 [⟨1, 80⟩] 30 h).2, hrem]

/-- C9: `availableBalance` equals
`max(0, Σ netUsd over entries − Σ netEarnings over withdrawals)` — never
negative — and a withdrawal whose requested `netEarnings` exceeds
`availableBalance + 0.01` is rejected with the Insufficient Funds outcome
carrying the available balance; it is not persisted. -/
theorem claim9_withdrawal_validation (entries : List EntryNet) (ws : List WithdrawalRow)
    (amt fee : ℚ) (h : amt > availableBalance entries ws + 1/100) :
    availableBalance entries ws =
      max 0 ((entries.map (fun e => e.netUsd)).sum -
        (ws.map (fun w => w.netEarnings)).sum) ∧
    0 ≤ availableBalance entries ws ∧
    part8SubmitWithdrawal entries ws amt fee =
      WithdrawOutcome.insufficientFunds (availableBalance entries ws) := by
  refine ⟨?_, le_max_left 0 _, ?_⟩
  · unfold availableBalance totalEarnings totalWithdrawn
    rw [foldl_add_eq_sum, foldl_add_eq_sum, zero_add, zero_add]
  · unfold part8SubmitWithdrawal
    rw [if_pos h]

/-- C9 witness: one entry of net $50 and one prior withdrawal of $10 leave
an available balance of $40; requesting $60 (> $40.01) is rejected with
Insufficient Funds carrying $40. -/
theorem claim9_witness :
    availableBalance [⟨50⟩] [⟨10, 1, 9⟩] = 40 ∧
    part8SubmitWithdrawal [⟨50⟩] [⟨10, 1, 9⟩] 60 1 =
      WithdrawOutcome.insufficientFunds 40 := by
  have hav : availableBalance [⟨50⟩] [⟨10, 1, 9⟩] = 40 := by
    unfold availableBalance totalEarnings totalWithdrawn
    simp only [List.foldl]
    norm_num
  refine ⟨hav, ?_⟩
  have h : (60 : ℚ) > availableBalance [⟨50⟩] [⟨10, 1, 9⟩] + 1/100 := by
    rw [hav]
    norm_num
  rw [(claim9_withdrawal_validation [⟨50⟩] [⟨10, 1, 9⟩] 60 1 h).2.2, hav]

/-- C10 counterexample: the server's POST /api/withdrawals handler persists
the caller-supplied `withdrawalAmount` unchanged — a request with
netEarnings $10, fee $0.99 and withdrawalAmount $999 stores $999, which is
not `netEarnings − transactionFee` — refuting the claim that the value is
always computed by the system and never taken from the caller. -/
theorem claim10_counterexample :
    (serverCreateWithdrawal ⟨10, 99/100, 999⟩).withdrawalAmount = 999 ∧
    (999 : ℚ) ≠ 10 - 99/100 := by
  constructor
  · rfl
  · norm_num

/-- C10 amended: the client withdrawal form computes
`withdrawalAmount = netEarnings − transactionFee` itself for every
withdrawal it creates, but the server persists whatever `withdrawalAmount`
the request body carries (no recomputation), so a direct API caller can
store a different value. -/
theorem claim10_amended_withdrawal_amount :
    (∀ (entries : List EntryNet) (ws : List WithdrawalRow) (amt fee : ℚ)
      (r : WithdrawalRow),
      part8SubmitWithdrawal entries ws amt fee = WithdrawOutcome.created r →
      r.withdrawalAmount = amt - fee) ∧
    (∀ body : WithdrawalBody,
      (serverCreateWithdrawal body).withdrawalAmount = body.withdrawalAmount) := by
  constructor
  · intro entries ws amt fee r h
    unfold part8SubmitWithdrawal at h
    split at h
    · cases h
    · cases h
      rfl
  · intro body
    rfl

/-- C10 witness: with $10 of net earnings available, a $5 withdrawal with a
$1 fee is created and its stored amount is $4 = 5 − 1. -/
theorem claim10_witness :
    part8SubmitWithdrawal [⟨10⟩] [] 5 1 = WithdrawOutcome.created ⟨5, 1, 4⟩ ∧
    (4 : ℚ) = 5 - 1 := by
  have hcreated : part8SubmitWithdrawal [⟨10⟩] [] 5 1 =
      WithdrawOutcome.created ⟨5, 1, 4⟩ := by
    unfold part8SubmitWithdrawal
    rw [if_neg]
    · norm_num
    · unfold availableBalance totalEarnings totalWithdrawn
      simp only [List.foldl]
      rw [zero_add, sub_zero, max_eq_right (by norm_num : (0:ℚ) ≤ 10)]
      norm_num
  exact ⟨hcreated,
    (claim10_amended_withdrawal_amount.1 [⟨10⟩] [] 5 1 ⟨5, 1, 4⟩ hcreated).symm ▸ rfl⟩

end TimeTrakr
